import Mathlib

/-!
Verification of the per-project reconciliation engine in `src/project.py`.

The engine drives an external VCS tool through subprocess calls.  We embed
the decision logic of `Sync_LocalHalf`, `CleanPublishedCache`,
`GetUploadableBranches`, `_InitMRef`, `_revlist` and `_LoadUserIdentity` as
pure Lean functions over an explicit ref-store state (`St`) and an
environment (`Env`) that supplies the answers of the read-only VCS
primitives (commit reachability, reflog lookups, remote-ref resolution) and
the exit status of the state-changing primitives.

Ref-changing subprocess effects (checkout, reset, rebase, merge,
update-ref) are modelled from the spec's documented semantics (sections 4.6
and 6 of the spec): a successful command applies its documented effect; a
failing command leaves the ref store unchanged (atomic ref updates).  Reads
whose failure the source does not catch would propagate as exceptions out
of the engine, so the model covers executions in which they succeed; the
reads the source does catch (`rev_parse` of a reflog entry, `rev_parse` of
a published ref) are modelled as `Option` results.
-/

namespace RepoPush

/-- Character-list prefix test (structural recursion on the pattern, so
that it reduces definitionally on partially concrete arguments). -/
def listPre : List Char → List Char → Bool
  | [], _ => true
  | _ :: _, [] => false
  | a :: as, b :: bs => a == b && listPre as bs

/-- Python `name.startswith(p)` on the character-list view of Lean strings.
Ref names here are ASCII, so byte positions and character positions
coincide. -/
def strStarts (s p : String) : Bool := listPre p.data s.data

/-- Python slice `name[n:]`, used to strip a ref-namespace prefix. -/
def strDropN (s : String) (n : Nat) : String := ⟨s.data.drop n⟩

/-- Constant `R_HEADS` of project.py. -/
def R_HEADS : String := "refs/heads/"

/-- Constant `R_PUB` of project.py. -/
def R_PUB : String := "refs/published/"

/-- Constant `R_M` of project.py. -/
def R_M : String := "refs/remotes/m/"

/-- The all-zero object id compared against in `Sync_LocalHalf`. -/
def nullOid : String := "0000000000000000000000000000000000000000"

/-- Association-list lookup: the model of reading one ref (or one config
entry) out of a python dict keyed by name. -/
def lookupS (l : List (String × String)) (k : String) : Option String :=
  (l.find? (fun p => p.1 == k)).map (fun p => p.2)

/-- Subprocess operations performed by the engine, in order.  Messages
printed by `_info` / `_warn` are recorded as bare `info` / `warn` marks;
their text is I/O and is not modelled. -/
inductive Action where
  | checkout (rev : String)
  | resetHard (rev : String)
  | rebase (upstream onto : String)
  | ffMerge (rev : String)
  | copyFiles
  | save
  | deleteRef (name oid : String)
  | warn
  | info
  deriving DecidableEq, Repr

/-- Actions that move `HEAD` or a branch tip through rebase, reset or
merge (the three history-changing commands of the decision tree). -/
def touchesTip : Action → Bool
  | .rebase _ _ => true
  | .resetHard _ => true
  | .ffMerge _ => true
  | _ => false

/-- The mutable per-project state visible to the engine: `HEAD` (symbolic
branch name, or detached), the oid `HEAD` resolves to, the local branches
(`refs/heads/`), the published cache (`refs/published/`), all remaining
refs, and the per-branch `merge` configuration entry. -/
structure St where
  headRef : Option String
  headOid : String
  heads : List (String × String)
  published : List (String × String)
  others : List (String × String)
  mergeCfg : String → String

/-- Read-only environment: project fields and the oracle answers of the
external VCS tool.  `anc x` is the set of commits reachable from oid `x`
(including `x`); emptiness of `rev-list ^a b` is containment of `b` in
`a`, per section 4.6.3 of the spec.  `remoteRef` resolves names that are
neither `HEAD` nor local branches (remote-tracking refs; a raw oid
resolves to itself).  `reflogPrev m` is `rev_parse("<m>@{1}")`, `none`
when that raises.  The `…Ok` flags are the exit status of the four
state-changing subcommands; `rebasedTip` is the branch tip produced by a
successful interactive rebase.  `revListRaw` is the raw `rev_list`
gateway primitive used by `_revlist`. -/
structure Env where
  anc : String → List String
  remoteRef : String → String
  reflogPrev : String → Option String
  toLocal : String → String
  revision : String
  dirtyNoUntracked : Bool
  checkoutOk : Bool
  rebaseOk : Bool
  resetOk : Bool
  mergeOk : Bool
  rebasedTip : String
  revListRaw : List String → List String

/-- Modelled from the spec: `Branch.LocalMerge` (git_config is an external
collaborator, not under src/); section 3 of the spec defines it as
`remote.ToLocal(merge)`, empty when the branch has no `merge`
configuration. -/
def LocalMerge (e : Env) (cfgMerge : String) : String :=
  if cfgMerge = "" then "" else e.toLocal cfgMerge

/-- The `branch.LocalMerge` of the branch named `b` in state `st`. -/
def mergeOf (e : Env) (st : St) (b : String) : String :=
  LocalMerge e (st.mergeCfg b)

/-- Resolution of a name passed to `rev-list` / `rev_parse`: `HEAD`, a
local branch, or (through `remoteRef`) a tracking ref or raw oid. -/
def resolve (e : Env) (st : St) (s : String) : String :=
  if s = "HEAD" then st.headOid
  else if strStarts s R_HEADS then
    match lookupS st.heads (strDropN s 11) with
    | some oid => oid
    | none => e.remoteRef s
  else e.remoteRef s

/-- The two-argument `_revlist(not_rev(excl), incl)` pattern used by the
decision tree: commits reachable from `incl` but not from `excl`. -/
def revlist2 (e : Env) (st : St) (excl incl : String) : List String :=
  (e.anc (resolve e st incl)).filter
    (fun c => !(decide (c ∈ e.anc (resolve e st excl))))

/-- Value `rev = rem.ToLocal(self.revision)` of `Sync_LocalHalf`. -/
def revOf (e : Env) : String := e.toLocal e.revision

/-- Value `upstream_gain = self._revlist(not_rev(HEAD), rev)`. -/
def gainOf (e : Env) (st : St) : List String :=
  revlist2 e st "HEAD" (revOf e)

/-- Value `old_merge` as computed at project.py lines 567-582: when the
tracked upstream name is unchanged, the reflog predecessor of `merge`
(falling back to `merge` itself on error, the null oid, or the empty
string); when the manifest switched upstreams, `merge` itself. -/
def oldMergeOf (e : Env) (merge : String) : String :=
  if merge = revOf e then
    match e.reflogPrev merge with
    | none => merge
    | some om => if om = nullOid ∨ om = "" then merge else om
  else merge

/-- Value `upstream_lost` (project.py lines 584-587): empty when
`rev == old_merge`, otherwise `revlist(^rev, old_merge)`. -/
def lostOf (e : Env) (st : St) (merge : String) : List String :=
  if revOf e = oldMergeOf e merge then []
  else revlist2 e st (revOf e) (oldMergeOf e merge)

/-- Value `not_merged` of the published-branch check (project.py lines
551-553): `revlist(^rev, pub)` when a published ref exists, else empty. -/
def notMergedOf (e : Env) (st : St) (b : String) : List String :=
  match lookupS st.published b with
  | some p => revlist2 e st (revOf e) p
  | none => []

/-- Effect of `branch.Save()` at project.py lines 606-608: the branch's
`merge` configuration becomes `project.revision`.  (The remote pointer is
also saved; remotes are constant in this model.) -/
def saveBranch (e : Env) (st : St) (b : String) : St :=
  { st with mergeCfg := fun n => if n = b then e.revision else st.mergeCfg n }

/-- Modelled from the spec: effect of a successful history-changing
command on the ref store (section 6, standard semantics): the current
branch tip and `HEAD` move to `oid`. -/
def setTip (st : St) (oid : String) : St :=
  { st with
    headOid := oid
    heads := st.heads.map (fun p => if st.headRef = some p.1 then (p.1, oid) else p) }

/-- Modelled from the spec: effect of a successful `checkout <rev>` of a
non-branch name: `HEAD` detaches at the oid of `rev`. -/
def detachTo (e : Env) (st : St) (rev : String) : St :=
  { st with headRef := none, headOid := resolve e st rev }

/-- The full ref listing `self._allrefs` (for-each-ref over the whole ref
store). -/
def allrefs (st : St) : List (String × String) :=
  st.heads.map (fun p => (R_HEADS ++ p.1, p.2))
    ++ st.published.map (fun p => (R_PUB ++ p.1, p.2))
    ++ st.others

/-- Embedding of `Project.CleanPublishedCache` (project.py lines 368-382):
collect the full names of `refs/heads/` refs, collect the `refs/published/`
refs with their observed oids, and delete each published ref whose branch
is absent, passing the observed oid as the compare-and-swap old value of
`update-ref -d`.  Returns the delete actions and the resulting state. -/
def CleanPublishedCache (st : St) : List Action × St :=
  let refs := allrefs st
  let headsSet := refs.filterMap
    (fun p => if strStarts p.1 R_HEADS then some p.1 else none)
  let canrm := refs.filter (fun p => strStarts p.1 R_PUB)
  let dels := canrm.filter
    (fun p => !(decide ((R_HEADS ++ strDropN p.1 15) ∈ headsSet)))
  (dels.map (fun p => Action.deleteRef p.1 p.2),
   { st with
     published := st.published.filter
       (fun q => !(decide ((R_PUB ++ q.1, q.2) ∈ dels))) })

/-- State after the `CleanPublishedCache()` call that opens
`Sync_LocalHalf`. -/
def postClean (st : St) : St := (CleanPublishedCache st).2

/-- Delete actions emitted by the `CleanPublishedCache()` call that opens
`Sync_LocalHalf`. -/
def cleanActs (st : St) : List Action := (CleanPublishedCache st).1

/-- Embedding of project.py lines 567-628: the tail of the decision tree
for a tracking branch, entered when the published-branch check fell
through.  `gain` is the previously computed `upstream_gain`. -/
def syncTrackedCont (e : Env) (st1 : St) (b merge : String) (gain : List String) :
    Bool × List Action × St :=
  let rev := revOf e
  let om := oldMergeOf e merge
  let switchInfo : List Action := if merge = rev then [] else [.info]
  let lost := lostOf e st1 merge
  if lost = [] ∧ gain = [] then (true, switchInfo, st1)
  else if e.dirtyNoUntracked then (false, switchInfo ++ [.warn], st1)
  else
    let lostInfo : List Action := if lost = [] then [] else [.info]
    let st2 := saveBranch e st1 b
    let mc := revlist2 e st2 om "HEAD"
    let pre := switchInfo ++ lostInfo ++ [Action.save]
    if mc ≠ [] then
      if e.rebaseOk then
        (true, pre ++ [.rebase om rev, .copyFiles], setTip st2 e.rebasedTip)
      else (false, pre ++ [.rebase om rev], st2)
    else if lost ≠ [] then
      if e.resetOk then
        (true, pre ++ [.resetHard rev, .copyFiles], setTip st2 (resolve e st2 rev))
      else (false, pre ++ [.resetHard rev], st2)
    else
      if e.mergeOk then
        (true, pre ++ [.ffMerge rev, .copyFiles], setTip st2 (resolve e st2 rev))
      else (false, pre ++ [.ffMerge rev], st2)

/-- Embedding of project.py lines 550-628: the tracking-branch case,
starting with `upstream_gain` and the published-branch check. -/
def syncTracked (e : Env) (st1 : St) (b merge : String) :
    Bool × List Action × St :=
  let rev := revOf e
  let gain := gainOf e st1
  match lookupS st1.published b with
  | some p =>
    if revlist2 e st1 rev p ≠ [] then
      (true, (if gain ≠ [] then [Action.info, Action.info] else []), st1)
    else syncTrackedCont e st1 b merge gain
  | none => syncTrackedCont e st1 b merge gain

/-- Embedding of `Project.Sync_LocalHalf` (project.py lines 503-628).  The
model covers runs whose worktree is already initialized (`_InitWorkTree`
is a no-op then).  A failing `checkout` raises only when the repository
has refs (`_Checkout`, lines 740-748); the raise is caught and turned into
a `false` return. -/
def Sync_LocalHalf (e : Env) (st : St) : Bool × List Action × St :=
  let ca := cleanActs st
  let st1 := postClean st
  let rev := revOf e
  match st1.headRef with
  | none =>
    let lost := revlist2 e st1 rev "HEAD"
    let infos : List Action := if lost = [] then [] else [.info]
    if e.checkoutOk then
      (true, ca ++ infos ++ [.checkout rev, .copyFiles], detachTo e st1 rev)
    else if allrefs st1 = [] then
      (true, ca ++ infos ++ [.checkout rev, .copyFiles], st1)
    else (false, ca ++ infos ++ [.checkout rev], st1)
  | some b =>
    let merge := mergeOf e st1 b
    if merge = "" then
      if e.checkoutOk then
        (true, ca ++ [.info, .checkout rev, .copyFiles], detachTo e st1 rev)
      else if allrefs st1 = [] then
        (true, ca ++ [.info, .checkout rev, .copyFiles], st1)
      else (false, ca ++ [.info, .checkout rev], st1)
    else
      let r := syncTracked e st1 b merge
      (r.1, ca ++ r.2.1, r.2.2)

/-- Embedding of `Project.GetUploadableBranches` (project.py lines
384-407): partition `_allrefs` into short-named `heads` and `pubed` maps,
then keep each branch whose published oid (if any) differs from its head
oid, whose `LocalMerge` is non-empty, and whose `revlist(^LocalMerge,
refs/heads/B)` is non-empty.  Each kept entry is the
`(branch, base = LocalMerge)` pair of the `ReviewableBranch`; the
formatting flags of `ReviewableBranch.commits` do not affect emptiness and
are dropped. -/
def GetUploadableBranches (e : Env) (st : St) : List (String × String) :=
  let refs := allrefs st
  let hs := refs.filterMap
    (fun p => if strStarts p.1 R_HEADS then some (strDropN p.1 11, p.2) else none)
  let pubed := refs.filterMap
    (fun p => if strStarts p.1 R_PUB then some (strDropN p.1 15, p.2) else none)
  hs.filterMap (fun bp =>
    if lookupS pubed bp.1 = some bp.2 then none
    else if LocalMerge e (st.mergeCfg bp.1) = "" then none
    else if revlist2 e st (LocalMerge e (st.mergeCfg bp.1)) (R_HEADS ++ bp.1) = []
      then none
    else some (bp.1, LocalMerge e (st.mergeCfg bp.1)))

/-- Embedding of `Project._revlist` (project.py lines 873-877): a command
list with a trailing `--` separator is built locally and discarded; the
original argument list is what reaches the underlying `rev_list`. -/
def projectRevlist (e : Env) (args : List String) : List String :=
  let _cmd := args ++ ["--"]
  e.revListRaw args

/-- Modelled from the spec: the behavior the spec says downstream code
expects of `_revlist` — the result of the underlying `rev-list` on the
original arguments, with no trailing `--` separator. -/
def revlistSpec (e : Env) (args : List String) : List String :=
  e.revListRaw args

/-- Python values that can end up in a subprocess argument list: a plain
string, or (through the trailing-comma slip in `_InitMRef`) a tuple of
strings. -/
inductive PyVal where
  | str (s : String)
  | tup (xs : List String)
  deriving DecidableEq, Repr

/-- Embedding of `_GitGetByExec.UpdateRef` argument assembly (project.py
lines 990-1002) for a call with a message, no old value, and a `new` value
that is an arbitrary python object. -/
def UpdateRefArgv (name : String) (neu : PyVal) (msg : String) (detach : Bool) :
    List PyVal :=
  [.str "-m", .str msg] ++ (if detach then [.str "--no-deref"] else [])
    ++ [.str name, neu]

/-- Modelled from the spec: `IsId` of git_config (not under src/) tests
for a 40-hex object id. -/
def IsId (s : String) : Bool :=
  s.data.length == 40 &&
    s.data.all (fun c => c.isDigit || ('a' ≤ c && c ≤ 'f'))

/-- Embedding of `Project._InitMRef` (project.py lines 813-824): with a
manifest branch set, either update `refs/remotes/m/<branch>` detached —
note the source's `dst = self.revision + '^0',` builds a one-element tuple
— or create a symbolic ref to the remote's local tracking name.  Returns
the gateway calls as (subcommand, argv) pairs. -/
def InitMRef (e : Env) (manifestBranch : String) : List (String × List PyVal) :=
  if manifestBranch ≠ "" then
    let msg := "manifest set to " ++ e.revision
    let ref := R_M ++ manifestBranch
    if IsId e.revision then
      let dst : PyVal := PyVal.tup [e.revision ++ "^0"]
      [("update-ref", UpdateRefArgv ref dst msg true)]
    else
      [("symbolic-ref",
        [.str "-m", .str msg, .str ref, .str (e.toLocal e.revision)])]
  else []

/-- One position of an attempted match of the anchored pattern
`^(.*) <([^>]*)> ` (re.match in `_LoadUserIdentity`): group 1 is the first
`i` characters (no newline, since `.` does not cross lines), then a
literal space and `<`, then group 2 is the maximal run without `>`, then
the literal `>` and a space. -/
def identMatchAt (u : List Char) (i : Nat) : Option (List Char × List Char) :=
  let g1 := u.take i
  if g1.contains '\n' then none
  else
    match u.drop i with
    | ' ' :: '<' :: r2 =>
      let g2 := r2.takeWhile (fun c => c ≠ '>')
      match r2.dropWhile (fun c => c ≠ '>') with
      | '>' :: ' ' :: _ => some (g1, g2)
      | _ => none
    | _ => none

/-- Embedding of the regex parse in `_LoadUserIdentity` (project.py lines
243-251): greedy `(.*)` backtracks from the longest candidate; on failure
both components are the empty string. -/
def parseIdent (u : String) : String × String :=
  match (List.range (u.data.length + 1)).reverse.findSome? (identMatchAt u.data) with
  | some p => (⟨p.1⟩, ⟨p.2⟩)
  | none => ("", "")

/-- The two lazily-cached identity reads of a `Project`. -/
inductive IdOp where
  | name
  | email
  deriving DecidableEq, Repr

/-- The `_userident_name` / `_userident_email` cache cells of a
`Project`. -/
structure IdentCache where
  nameC : Option String
  emailC : Option String

/-- Effect of `_LoadUserIdentity` on the cache cells: both are filled from
one parse of the committer ident `u`. -/
def identLoad (u : String) : IdentCache :=
  ⟨some (parseIdent u).1, some (parseIdent u).2⟩

/-- One read of `UserName` / `UserEmail` (project.py lines 226-241):
loads when the corresponding cell is `None`; the returned `Nat` counts the
`_LoadUserIdentity` calls performed (0 or 1). -/
def identGet (u : String) (s : IdentCache) (op : IdOp) :
    String × IdentCache × Nat :=
  match op with
  | .name =>
    match s.nameC with
    | none => (((identLoad u).nameC).getD "", identLoad u, 1)
    | some v => (v, s, 0)
  | .email =>
    match s.emailC with
    | none => (((identLoad u).emailC).getD "", identLoad u, 1)
    | some v => (v, s, 0)

/-- A sequence of identity reads against one `Project`: the returned
values, the final cache, and the total number of parses performed. -/
def identRun (u : String) (s : IdentCache) :
    List IdOp → List String × IdentCache × Nat
  | [] => ([], s, 0)
  | op :: ops =>
    let r := identGet u s op
    let rest := identRun u r.2.1 ops
    (r.1 :: rest.1, rest.2.1, r.2.2 + rest.2.2)

/-- Value `my_changes = self._revlist(not_rev(old_merge), HEAD)` computed
after `branch.Save()` (project.py line 610). -/
def myChangesOf (e : Env) (st1 : St) (b merge : String) : List String :=
  revlist2 e (saveBranch e st1 b) (oldMergeOf e merge) "HEAD"

/-- Actions the tracked decision tree emits between falling past the
no-change test and the history-changing command: the upstream-switch
notice, the discarded-commits notice, and the `branch.Save()`. -/
def preActs (e : Env) (st1 : St) (merge : String) : List Action :=
  (if merge = revOf e then [] else [.info])
    ++ (if lostOf e st1 merge = [] then [] else [.info]) ++ [Action.save]

/-- Namespace hygiene for a ref store: the refs outside `refs/heads/` and
`refs/published/` carry neither prefix. -/
def OthersClean (st : St) : Prop :=
  ∀ p ∈ st.others, strStarts p.1 R_HEADS = false ∧ strStarts p.1 R_PUB = false

/-- Commit reachability of the concrete test history: `oidB` is the root,
`oidX` the old upstream tip, `oidY` the new upstream tip (descendant of
`oidX`), `oidT` a user commit on `oidX`, `oidT2` a user commit on `oidY`,
`oidP` a published snapshot on `oidX`, `oidW` a rewritten-away upstream
tip on `oidB`. -/
def ancEx : String → List String := fun s =>
  if s = "oidY" then ["oidY", "oidX", "oidB"]
  else if s = "oidT" then ["oidT", "oidX", "oidB"]
  else if s = "oidT2" then ["oidT2", "oidY", "oidX", "oidB"]
  else if s = "oidP" then ["oidP", "oidX", "oidB"]
  else if s = "oidX" then ["oidX", "oidB"]
  else if s = "oidW" then ["oidW", "oidB"]
  else [s]

/-- Base concrete environment: one remote `origin`, manifest revision
`refs/heads/master` tracking `refs/remotes/origin/master` at `oidY`. -/
def envBase : Env where
  anc := ancEx
  remoteRef := fun s => if s = "refs/remotes/origin/master" then "oidY" else s
  reflogPrev := fun _ => none
  toLocal := fun s =>
    if s = "refs/heads/master" then "refs/remotes/origin/master" else s
  revision := "refs/heads/master"
  dirtyNoUntracked := false
  checkoutOk := true
  rebaseOk := true
  resetOk := true
  mergeOk := true
  rebasedTip := "oidR"
  revListRaw := fun _ => []

/-- Base concrete state: on branch `topic` at the user commit `oidT`,
tracking `refs/heads/master`. -/
def stBase : St where
  headRef := some "topic"
  headOid := "oidT"
  heads := [("topic", "oidT")]
  published := []
  others := []
  mergeCfg := fun b => if b = "topic" then "refs/heads/master" else ""

/-- Fast-forward scenario: the topic branch still sits at the old upstream
tip `oidX` while upstream advanced to `oidY`. -/
def stFF : St :=
  { stBase with headOid := "oidX", heads := [("topic", "oidX")] }

/-- Hard-reset scenario: upstream rewrote `oidW` away (reflog predecessor
`oidW`, new tip `oidY`) and the user has no commits of their own. -/
def envReset : Env :=
  { envBase with
    reflogPrev := fun s =>
      if s = "refs/remotes/origin/master" then some "oidW" else none }

/-- State for the hard-reset scenario: the branch sits exactly at the
rewritten-away tip `oidW`. -/
def stReset : St :=
  { stBase with headOid := "oidW", heads := [("topic", "oidW")] }

/-- Published-punt scenario: `topic` was published at `oidP`, which the
new upstream tip `oidY` does not contain, and the worktree is dirty. -/
def envPub : Env := { envBase with dirtyNoUntracked := true }

/-- Environment that refuses: clean history advance but a dirty
worktree. -/
def envDirty : Env := { envBase with dirtyNoUntracked := true }

/-- Published-punt state with upstream gain (`HEAD` at `oidT`, upstream at
`oidY`). -/
def stPub : St := { stBase with published := [("topic", "oidP")] }

/-- Published-punt environment with no upstream gain but upstream loss:
the reflog predecessor `oidW` was rewritten away. -/
def envPubNoGain : Env :=
  { envPub with
    reflogPrev := fun s =>
      if s = "refs/remotes/origin/master" then some "oidW" else none }

/-- Published-punt state with no upstream gain: `HEAD` at `oidT2`, which
already contains the upstream tip `oidY`. -/
def stPubNoGain : St :=
  { stPub with headOid := "oidT2", heads := [("topic", "oidT2")] }

/-- Reviewable-branch scenario: `good` has tracking and unpublished work,
`stale` is already published at its tip, `notrack` has no tracking. -/
def stUpl : St where
  headRef := some "good"
  headOid := "oidT"
  heads := [("good", "oidT"), ("stale", "oidS"), ("notrack", "oidN")]
  published := [("stale", "oidS")]
  others := []
  mergeCfg := fun b => if b = "good" then "refs/heads/master" else ""

/-- Published-cache pruning scenario: `refs/published/gone` has no branch,
`refs/published/kept` does; a tag sits in the ref store as well. -/
def stPrune : St where
  headRef := some "kept"
  headOid := "oidK2"
  heads := [("kept", "oidK2")]
  published := [("gone", "oidP"), ("kept", "oidK")]
  others := [("refs/tags/v1", "oidV")]
  mergeCfg := fun _ => ""

/-- Environment whose manifest revision is a raw 40-hex object id. -/
def envId : Env :=
  { envBase with revision := "aaaaaaaaaaaaaaaaaaaaaaaaaaaaaaaaaaaaaaaa" }

theorem listPre_append (l m : List Char) : listPre l (l ++ m) = true := by
  induction l with
  | nil => rfl
  | cons a t ih => simp [listPre, ih]

theorem strStarts_pub_self (s : String) : strStarts (R_PUB ++ s) R_PUB = true := by
  show listPre R_PUB.data (R_PUB ++ s).data = true
  rw [String.data_append]
  exact listPre_append _ _

theorem strStarts_heads_self (s : String) : strStarts (R_HEADS ++ s) R_HEADS = true := by
  show listPre R_HEADS.data (R_HEADS ++ s).data = true
  rw [String.data_append]
  exact listPre_append _ _

theorem strStarts_pub_heads (s : String) : strStarts (R_PUB ++ s) R_HEADS = false := rfl

theorem strStarts_heads_pub (s : String) : strStarts (R_HEADS ++ s) R_PUB = false := rfl

theorem strDropN_pub (s : String) : strDropN (R_PUB ++ s) 15 = s := rfl

theorem strDropN_heads (s : String) : strDropN (R_HEADS ++ s) 11 = s := rfl

theorem heads_append_inj {a b : String} (h : R_HEADS ++ a = R_HEADS ++ b) : a = b := by
  have h2 := congrArg (fun s => strDropN s 11) h
  simpa using h2

theorem pub_append_inj {a b : String} (h : R_PUB ++ a = R_PUB ++ b) : a = b := by
  have h2 := congrArg (fun s => strDropN s 15) h
  simpa using h2

theorem postClean_headRef (st : St) : (postClean st).headRef = st.headRef := rfl

theorem postClean_headOid (st : St) : (postClean st).headOid = st.headOid := rfl

theorem postClean_heads (st : St) : (postClean st).heads = st.heads := rfl

theorem postClean_others (st : St) : (postClean st).others = st.others := rfl

theorem postClean_mergeCfg (st : St) : (postClean st).mergeCfg = st.mergeCfg := rfl

theorem saveBranch_headRef (e : Env) (st : St) (b : String) :
    (saveBranch e st b).headRef = st.headRef := rfl

theorem setTip_headRef (st : St) (o : String) : (setTip st o).headRef = st.headRef := rfl

theorem setTip_headOid (st : St) (o : String) : (setTip st o).headOid = o := rfl

theorem resolve_postClean (e : Env) (st : St) (s : String) :
    resolve e (postClean st) s = resolve e st s := rfl

theorem resolve_saveBranch (e : Env) (st : St) (b s : String) :
    resolve e (saveBranch e st b) s = resolve e st s := rfl

theorem resolve_stable (e : Env) (st : St) {s : String} (h1 : s ≠ "HEAD")
    (h2 : strStarts s R_HEADS = false) : resolve e st s = e.remoteRef s := by
  unfold resolve
  rw [if_neg h1, h2]
  simp

theorem gainOf_postClean (e : Env) (st : St) :
    gainOf e (postClean st) = gainOf e st := rfl

theorem lostOf_postClean (e : Env) (st : St) (merge : String) :
    lostOf e (postClean st) merge = lostOf e st merge := rfl

theorem mergeOf_postClean (e : Env) (st : St) (b : String) :
    mergeOf e (postClean st) b = mergeOf e st b := rfl

theorem sync_tracked_eq (e : Env) (st : St) (b : String)
    (hb : st.headRef = some b) (hm : mergeOf e st b ≠ "") :
    Sync_LocalHalf e st =
      ((syncTracked e (postClean st) b (mergeOf e st b)).1,
       cleanActs st ++ (syncTracked e (postClean st) b (mergeOf e st b)).2.1,
       (syncTracked e (postClean st) b (mergeOf e st b)).2.2) := by
  simp only [Sync_LocalHalf, postClean_headRef, hb, mergeOf_postClean, hm, if_neg]
  simp [hm]

theorem syncTracked_no_punt (e : Env) (st1 : St) (b merge : String)
    (hnm : notMergedOf e st1 b = []) :
    syncTracked e st1 b merge = syncTrackedCont e st1 b merge (gainOf e st1) := by
  unfold syncTracked
  unfold notMergedOf at hnm
  rcases h : lookupS st1.published b with _ | p
  · simp [h]
  · rw [h] at hnm
    have hnm2 : revlist2 e st1 (revOf e) p = [] := hnm
    simp [h, hnm2]

theorem syncTracked_punt (e : Env) (st1 : St) (b merge : String)
    (hnm : notMergedOf e st1 b ≠ []) :
    syncTracked e st1 b merge =
      (true, (if gainOf e st1 ≠ [] then [Action.info, Action.info] else []), st1) := by
  unfold syncTracked
  unfold notMergedOf at hnm
  rcases h : lookupS st1.published b with _ | p
  · rw [h] at hnm; simp at hnm
  · rw [h] at hnm
    have hnm2 : ¬(revlist2 e st1 (revOf e) p = []) := hnm
    simp [h, hnm2]

theorem cont_noop (e : Env) (st1 : St) (b merge : String) (gain : List String)
    (hl : lostOf e st1 merge = []) (hg : gain = []) :
    syncTrackedCont e st1 b merge gain =
      (true, (if merge = revOf e then [] else [Action.info]), st1) := by
  unfold syncTrackedCont
  simp [hl, hg]

theorem cont_dirty (e : Env) (st1 : St) (b merge : String) (gain : List String)
    (h : ¬(lostOf e st1 merge = [] ∧ gain = []))
    (hd : e.dirtyNoUntracked = true) :
    syncTrackedCont e st1 b merge gain =
      (false, (if merge = revOf e then [] else [Action.info]) ++ [Action.warn], st1) := by
  unfold syncTrackedCont
  simp [h, hd]

theorem cont_rebase (e : Env) (st1 : St) (b merge : String) (gain : List String)
    (h : ¬(lostOf e st1 merge = [] ∧ gain = []))
    (hd : e.dirtyNoUntracked = false)
    (hmc : myChangesOf e st1 b merge ≠ []) :
    syncTrackedCont e st1 b merge gain =
      (e.rebaseOk,
       preActs e st1 merge ++ [.rebase (oldMergeOf e merge) (revOf e)]
         ++ (if e.rebaseOk then [Action.copyFiles] else []),
       if e.rebaseOk then setTip (saveBranch e st1 b) e.rebasedTip
       else saveBranch e st1 b) := by
  unfold myChangesOf at hmc
  unfold syncTrackedCont preActs
  simp only [hd]
  rw [if_neg h, if_neg (by simp : ¬(false = true))]
  rw [if_pos hmc]
  cases hr : e.rebaseOk <;> simp

theorem cont_reset (e : Env) (st1 : St) (b merge : String) (gain : List String)
    (h : ¬(lostOf e st1 merge = [] ∧ gain = []))
    (hd : e.dirtyNoUntracked = false)
    (hmc : myChangesOf e st1 b merge = [])
    (hl : lostOf e st1 merge ≠ []) :
    syncTrackedCont e st1 b merge gain =
      (e.resetOk,
       preActs e st1 merge ++ [.resetHard (revOf e)]
         ++ (if e.resetOk then [Action.copyFiles] else []),
       if e.resetOk then
         setTip (saveBranch e st1 b) (resolve e (saveBranch e st1 b) (revOf e))
       else saveBranch e st1 b) := by
  unfold myChangesOf at hmc
  unfold syncTrackedCont preActs
  simp only [hd]
  rw [if_neg h, if_neg (by simp : ¬(false = true))]
  rw [if_neg (by simpa using hmc), if_pos hl]
  cases hr : e.resetOk <;> simp [hl]

theorem cont_ff (e : Env) (st1 : St) (b merge : String) (gain : List String)
    (h : ¬(lostOf e st1 merge = [] ∧ gain = []))
    (hd : e.dirtyNoUntracked = false)
    (hmc : myChangesOf e st1 b merge = [])
    (hl : lostOf e st1 merge = []) :
    syncTrackedCont e st1 b merge gain =
      (e.mergeOk,
       preActs e st1 merge ++ [.ffMerge (revOf e)]
         ++ (if e.mergeOk then [Action.copyFiles] else []),
       if e.mergeOk then
         setTip (saveBranch e st1 b) (resolve e (saveBranch e st1 b) (revOf e))
       else saveBranch e st1 b) := by
  unfold myChangesOf at hmc
  unfold syncTrackedCont preActs
  simp only [hd]
  rw [if_neg h, if_neg (by simp : ¬(false = true))]
  rw [if_neg (by simpa using hmc), if_neg (by simpa using hl)]
  cases hr : e.mergeOk <;> simp [hl]


/-- Claim C5: in Sync_LocalHalf, when the tracked upstream name is unchanged
(merge == rev) and reading the reflog predecessor rev_parse('<merge>@\x7b1\x7d')
either fails, yields the all-zero 40-hex oid, or yields the empty string,
old_merge is set to merge itself, so upstream_lost is then computed as
empty. -/
theorem c5_reflog_unknown (e : Env) (st : St) (merge : String)
    (hm : merge = revOf e)
    (hr : e.reflogPrev merge = none ∨ e.reflogPrev merge = some nullOid ∨
          e.reflogPrev merge = some "") :
    oldMergeOf e merge = merge ∧ lostOf e st merge = [] := by
  have hom : oldMergeOf e merge = merge := by
    unfold oldMergeOf
    rw [if_pos hm]
    rcases hr with h | h | h <;> rw [h] <;> simp
  refine ⟨hom, ?_⟩
  unfold lostOf
  rw [hom, if_pos hm.symm]

/-- Witness for C5 at a concrete environment whose reflog lookup fails. -/
theorem c5_witness :
    oldMergeOf envBase "refs/remotes/origin/master" = "refs/remotes/origin/master" ∧
    lostOf envBase stBase "refs/remotes/origin/master" = [] :=
  c5_reflog_unknown envBase stBase _ (by decide) (Or.inl (by decide))

/-- Claim C9: for every argument list args, _revlist(args) returns exactly
the result of invoking the underlying rev_list with the original args and no
trailing '--' separator; the locally built command list is discarded and has
no effect on the result. -/
theorem c9_revlist_refinement (e : Env) : ∀ args : List String,
    projectRevlist e args = revlistSpec e args ∧
    projectRevlist e args = e.revListRaw args :=
  fun _ => ⟨rfl, rfl⟩

/-- Claim C8 (code bug): when project.revision is a 40-hex object id,
_InitMRef builds `dst = self.revision + '^0',` whose trailing comma makes a
one-element tuple, and that tuple object - not the plain string the claim
and the spec describe - is what reaches the update-ref argument list.  The
theorem evaluates the embedded code at the failing input and shows the
argv slot holds the tuple, which differs from the string. -/
theorem c8_initmref_tuple :
    InitMRef envId "master" =
      [("update-ref",
        [PyVal.str "-m",
         PyVal.str "manifest set to aaaaaaaaaaaaaaaaaaaaaaaaaaaaaaaaaaaaaaaa",
         PyVal.str "--no-deref", PyVal.str "refs/remotes/m/master",
         PyVal.tup ["aaaaaaaaaaaaaaaaaaaaaaaaaaaaaaaaaaaaaaaa^0"]])] ∧
    IsId envId.revision = true ∧
    (∀ s : String, PyVal.tup [s] ≠ PyVal.str s) := by
  refine ⟨by decide, by decide, fun s h => ?_⟩
  cases h

theorem identRun_full (u n em : String) (ops : List IdOp) :
    identRun u ⟨some n, some em⟩ ops =
      (ops.map (fun op => match op with
        | .name => n
        | .email => em),
       ⟨some n, some em⟩, 0) := by
  induction ops with
  | nil => rfl
  | cons op t ih =>
    cases op <;> simp [identRun, identGet, ih]

/-- Claim C10: every sequence of UserName/UserEmail reads against a fresh
Project parses the committer ident at most once, and each read returns the
corresponding group of the match of '^(.*) <([^>]*)> ' (both components
empty, with no error, when the ident does not match). -/
theorem c10_ident (u : String) (ops : List IdOp) :
    (identRun u ⟨none, none⟩ ops).2.2 ≤ 1 ∧
    (identRun u ⟨none, none⟩ ops).1 =
      ops.map (fun op => match op with
        | .name => (parseIdent u).1
        | .email => (parseIdent u).2) := by
  cases ops with
  | nil => simp [identRun]
  | cons op t =>
    have hl : identLoad u = ⟨some (parseIdent u).1, some (parseIdent u).2⟩ := rfl
    cases op <;>
      simp [identRun, identGet, hl, identRun_full]

/-- Counterexample for C2: a run on a published tracking branch whose
published tip is not contained in the new upstream and whose upstream_gain
is empty; Sync_LocalHalf returns true, while the remainder of the decision
tree (the claimed fall-through) would return false - so the call does not
fall through. -/
theorem c2_counterexample :
    stPubNoGain.headRef = some "topic" ∧
    mergeOf envPubNoGain stPubNoGain "topic" ≠ "" ∧
    notMergedOf envPubNoGain (postClean stPubNoGain) "topic" ≠ [] ∧
    gainOf envPubNoGain (postClean stPubNoGain) = [] ∧
    (Sync_LocalHalf envPubNoGain stPubNoGain).1 = true ∧
    (syncTrackedCont envPubNoGain (postClean stPubNoGain) "topic"
      (mergeOf envPubNoGain stPubNoGain "topic")
      (gainOf envPubNoGain (postClean stPubNoGain))).1 = false :=
  ⟨by decide, by decide, by decide, by decide, by decide, by decide⟩

/-- Claim C2 (amended): when the published ref exists and the published tip
is not contained in the new upstream, Sync_LocalHalf returns true without
touching the state, whether or not there is upstream gain; upstream_gain
only controls the two informational messages. -/
theorem c2_published_punt (e : Env) (st : St) (b : String)
    (hb : st.headRef = some b) (hm : mergeOf e st b ≠ "")
    (hnm : notMergedOf e (postClean st) b ≠ []) :
    (Sync_LocalHalf e st).1 = true ∧
    (Sync_LocalHalf e st).2.1 =
      cleanActs st ++
        (if gainOf e (postClean st) ≠ [] then [Action.info, Action.info] else []) ∧
    (Sync_LocalHalf e st).2.2 = postClean st := by
  rw [sync_tracked_eq e st b hb hm, syncTracked_punt e _ b _ hnm]
  exact ⟨rfl, rfl, rfl⟩

/-- Witness for C2 at a concrete published-and-behind environment with
upstream gain. -/
theorem c2_witness :
    (Sync_LocalHalf envPub stPub).1 = true ∧
    (Sync_LocalHalf envPub stPub).2.1 = [Action.info, Action.info] ∧
    (Sync_LocalHalf envPub stPub).2.2 = postClean stPub := by
  have h := c2_published_punt envPub stPub "topic" (by decide) (by decide) (by decide)
  exact ⟨h.1, h.2.1.trans (by decide), h.2.2⟩

theorem saveBranch_headOid (e : Env) (st : St) (b : String) :
    (saveBranch e st b).headOid = st.headOid := rfl

theorem saveBranch_heads (e : Env) (st : St) (b : String) :
    (saveBranch e st b).heads = st.heads := rfl

theorem syncTrackedCont_false_state (e : Env) (st1 : St) (b merge : String)
    (gain : List String) (h : (syncTrackedCont e st1 b merge gain).1 = false) :
    (syncTrackedCont e st1 b merge gain).2.2.headRef = st1.headRef ∧
    (syncTrackedCont e st1 b merge gain).2.2.headOid = st1.headOid ∧
    (syncTrackedCont e st1 b merge gain).2.2.heads = st1.heads := by
  by_cases h1 : lostOf e st1 merge = [] ∧ gain = []
  · rw [cont_noop e st1 b merge gain h1.1 h1.2] at h
    simp at h
  · by_cases hd : e.dirtyNoUntracked = true
    · rw [cont_dirty e st1 b merge gain h1 hd]
      exact ⟨rfl, rfl, rfl⟩
    · have hd2 : e.dirtyNoUntracked = false := by simpa using hd
      by_cases hmc : myChangesOf e st1 b merge = []
      · by_cases hl : lostOf e st1 merge = []
        · rw [cont_ff e st1 b merge gain h1 hd2 hmc hl] at h ⊢
          simp only at h
          rw [h]
          exact ⟨rfl, rfl, rfl⟩
        · rw [cont_reset e st1 b merge gain h1 hd2 hmc hl] at h ⊢
          simp only at h
          rw [h]
          exact ⟨rfl, rfl, rfl⟩
      · rw [cont_rebase e st1 b merge gain h1 hd2 hmc] at h ⊢
        simp only at h
        rw [h]
        exact ⟨rfl, rfl, rfl⟩

theorem syncTracked_false_state (e : Env) (st1 : St) (b merge : String)
    (h : (syncTracked e st1 b merge).1 = false) :
    (syncTracked e st1 b merge).2.2.headRef = st1.headRef ∧
    (syncTracked e st1 b merge).2.2.headOid = st1.headOid ∧
    (syncTracked e st1 b merge).2.2.heads = st1.heads := by
  by_cases hnm : notMergedOf e st1 b = []
  · rw [syncTracked_no_punt e st1 b merge hnm] at h ⊢
    exact syncTrackedCont_false_state e st1 b merge (gainOf e st1) h
  · rw [syncTracked_punt e st1 b merge hnm] at h
    simp at h



theorem sync_false_state (e : Env) (st : St)
    (h : (Sync_LocalHalf e st).1 = false) :
    (Sync_LocalHalf e st).2.2.headRef = st.headRef ∧
    (Sync_LocalHalf e st).2.2.headOid = st.headOid ∧
    (Sync_LocalHalf e st).2.2.heads = st.heads := by
  rcases hh : st.headRef with _ | b
  · have hh2 : (postClean st).headRef = none := hh
    simp only [Sync_LocalHalf, hh2] at h ⊢
    by_cases hc : e.checkoutOk = true
    · simp [hc] at h
    · have hc2 : e.checkoutOk = false := by simpa using hc
      by_cases ha : allrefs (postClean st) = []
      · simp [hc2, ha] at h
      · simp only [hc2, ha, Bool.false_eq_true, if_false] at h ⊢
        exact ⟨hh, rfl, rfl⟩
  · by_cases hm : mergeOf e st b = ""
    · have hh2 : (postClean st).headRef = some b := hh
      have hm2 : mergeOf e (postClean st) b = "" := hm
      simp only [Sync_LocalHalf, hh2, hm2, if_true] at h ⊢
      by_cases hc : e.checkoutOk = true
      · simp [hc] at h
      · have hc2 : e.checkoutOk = false := by simpa using hc
        by_cases ha : allrefs (postClean st) = []
        · simp [hc2, ha] at h
        · simp only [hc2, ha, Bool.false_eq_true, if_false] at h ⊢
          exact ⟨hh, rfl, rfl⟩
    · rw [sync_tracked_eq e st b hh hm] at h ⊢
      simp only at h
      have h3 := syncTracked_false_state e (postClean st) b (mergeOf e st b) h
      have hh3 : (postClean st).headRef = some b := hh
      exact ⟨h3.1.trans hh3, h3.2.1, h3.2.2⟩




/-- Claim C3 (amended): (1) on a tracking branch that is not refused as
published, with upstream_gain or upstream_lost non-empty and a dirty
worktree (untracked files excluded), Sync_LocalHalf returns false after a
warning; (2) every Sync_LocalHalf call that returns false leaves HEAD and
every refs/heads/ branch unchanged, including subprocess-failure cases. -/
theorem c3_dirty_refusal_and_preservation :
    (∀ (e : Env) (st : St) (b : String),
      st.headRef = some b → mergeOf e st b ≠ "" →
      notMergedOf e (postClean st) b = [] →
      ¬(lostOf e (postClean st) (mergeOf e st b) = [] ∧
        gainOf e (postClean st) = []) →
      e.dirtyNoUntracked = true →
      (Sync_LocalHalf e st).1 = false ∧
      Action.warn ∈ (Sync_LocalHalf e st).2.1) ∧
    (∀ (e : Env) (st : St), (Sync_LocalHalf e st).1 = false →
      (Sync_LocalHalf e st).2.2.headRef = st.headRef ∧
      (Sync_LocalHalf e st).2.2.headOid = st.headOid ∧
      (Sync_LocalHalf e st).2.2.heads = st.heads) := by
  constructor
  · intro e st b hb hm hnm hch hd
    rw [sync_tracked_eq e st b hb hm, syncTracked_no_punt e _ b _ hnm,
        cont_dirty e _ b _ _ hch hd]
    refine ⟨rfl, ?_⟩
    simp
  · exact sync_false_state

/-- Counterexample for C3's refusal clause as stated: on a dirty worktree
with non-empty upstream_gain but a published branch whose tip is not in the
new upstream, Sync_LocalHalf returns true, not false. -/
theorem c3_counterexample :
    stPub.headRef = some "topic" ∧
    mergeOf envPub stPub "topic" ≠ "" ∧
    envPub.dirtyNoUntracked = true ∧
    gainOf envPub (postClean stPub) ≠ [] ∧
    (Sync_LocalHalf envPub stPub).1 = true :=
  ⟨by decide, by decide, by decide, by decide, by decide⟩

/-- Witness for C3 at a concrete dirty-worktree environment. -/
theorem c3_witness :
    ((Sync_LocalHalf envDirty stBase).1 = false ∧
     Action.warn ∈ (Sync_LocalHalf envDirty stBase).2.1) ∧
    ((Sync_LocalHalf envDirty stBase).2.2.headRef = stBase.headRef ∧
     (Sync_LocalHalf envDirty stBase).2.2.headOid = stBase.headOid ∧
     (Sync_LocalHalf envDirty stBase).2.2.heads = stBase.heads) := by
  have h1 := c3_dirty_refusal_and_preservation.1 envDirty stBase "topic"
    (by decide) (by decide) (by decide) (by decide) (by decide)
  exact ⟨h1, c3_dirty_refusal_and_preservation.2 envDirty stBase h1.1⟩



/-- Claim C1: for every Sync_LocalHalf run on a tracking branch that
reaches the action step (not refused as published, upstream_gain or
upstream_lost non-empty, worktree clean): if my_changes is non-empty it
rebases HEAD from old_merge onto rev; else if upstream_lost is non-empty it
hard-resets to rev; else it fast-forward merges to rev; and on success it
installs copy-files and returns true. -/
theorem c1_action_selection (e : Env) (st : St) (b : String)
    (hb : st.headRef = some b) (hm : mergeOf e st b ≠ "")
    (hnm : notMergedOf e (postClean st) b = [])
    (hch : ¬(lostOf e (postClean st) (mergeOf e st b) = [] ∧
             gainOf e (postClean st) = []))
    (hd : e.dirtyNoUntracked = false) :
    (myChangesOf e (postClean st) b (mergeOf e st b) ≠ [] →
      e.rebaseOk = true →
      (Sync_LocalHalf e st).1 = true ∧
      (Sync_LocalHalf e st).2.1 =
        cleanActs st ++ preActs e (postClean st) (mergeOf e st b) ++
          [Action.rebase (oldMergeOf e (mergeOf e st b)) (revOf e),
           Action.copyFiles]) ∧
    (myChangesOf e (postClean st) b (mergeOf e st b) = [] →
      lostOf e (postClean st) (mergeOf e st b) ≠ [] →
      e.resetOk = true →
      (Sync_LocalHalf e st).1 = true ∧
      (Sync_LocalHalf e st).2.1 =
        cleanActs st ++ preActs e (postClean st) (mergeOf e st b) ++
          [Action.resetHard (revOf e), Action.copyFiles]) ∧
    (myChangesOf e (postClean st) b (mergeOf e st b) = [] →
      lostOf e (postClean st) (mergeOf e st b) = [] →
      e.mergeOk = true →
      (Sync_LocalHalf e st).1 = true ∧
      (Sync_LocalHalf e st).2.1 =
        cleanActs st ++ preActs e (postClean st) (mergeOf e st b) ++
          [Action.ffMerge (revOf e), Action.copyFiles]) := by
  refine ⟨?_, ?_, ?_⟩
  · intro hmc hro
    rw [sync_tracked_eq e st b hb hm, syncTracked_no_punt e _ b _ hnm,
        cont_rebase e _ b _ _ hch hd hmc]
    simp [hro]
  · intro hmc hl hro
    rw [sync_tracked_eq e st b hb hm, syncTracked_no_punt e _ b _ hnm,
        cont_reset e _ b _ _ hch hd hmc hl]
    simp [hro]
  · intro hmc hl hro
    rw [sync_tracked_eq e st b hb hm, syncTracked_no_punt e _ b _ hnm,
        cont_ff e _ b _ _ hch hd hmc hl]
    simp [hro]

/-- Witness for C1 at a concrete environment taking the rebase branch. -/
theorem c1_witness :
    (Sync_LocalHalf envBase stBase).1 = true ∧
    (Sync_LocalHalf envBase stBase).2.1 =
      [Action.save,
       Action.rebase "refs/remotes/origin/master" "refs/remotes/origin/master",
       Action.copyFiles] := by
  have h := (c1_action_selection envBase stBase "topic" (by decide) (by decide)
    (by decide) (by decide) (by decide)).1 (by decide) (by decide)
  exact ⟨h.1, h.2.trans (by decide)⟩

theorem filter_self_empty (l : List String) :
    l.filter (fun c => !(decide (c ∈ l))) = [] := by
  rw [List.filter_eq_nil_iff]
  intro a ha
  simp [ha]

theorem cleanActs_no_tip (st : St) : ∀ a ∈ cleanActs st, touchesTip a = false := by
  intro a ha
  unfold cleanActs CleanPublishedCache at ha
  simp only [List.mem_map] at ha
  obtain ⟨p, _, hp⟩ := ha
  rw [← hp]
  rfl

theorem resolve_HEAD (e : Env) (st : St) : resolve e st "HEAD" = st.headOid := by
  unfold resolve
  rw [if_pos rfl]

theorem sync_second_noop (e : Env) (s2 : St) (b : String)
    (hb2 : s2.headRef = some b) (hm2 : mergeOf e s2 b ≠ "")
    (hg2 : gainOf e (postClean s2) = [])
    (hl2 : lostOf e (postClean s2) (mergeOf e s2 b) = []) :
    (Sync_LocalHalf e s2).1 = true ∧
    (∀ a ∈ (Sync_LocalHalf e s2).2.1, touchesTip a = false) := by
  rw [sync_tracked_eq e s2 b hb2 hm2]
  by_cases hnm2 : notMergedOf e (postClean s2) b = []
  · rw [syncTracked_no_punt e _ b _ hnm2, cont_noop e _ b _ _ hl2 hg2]
    refine ⟨rfl, ?_⟩
    intro a ha
    rcases List.mem_append.mp ha with h | h
    · exact cleanActs_no_tip _ a h
    · by_cases hsw : mergeOf e s2 b = revOf e
      · rw [if_pos hsw] at h; simp at h
      · rw [if_neg hsw] at h; simp at h; subst h; rfl
  · rw [syncTracked_punt e _ b _ hnm2]
    refine ⟨rfl, ?_⟩
    intro a ha
    rcases List.mem_append.mp ha with h | h
    · exact cleanActs_no_tip _ a h
    · by_cases hg : gainOf e (postClean s2) ≠ []
      · rw [if_pos hg] at h
        simp at h
        subst h
        rfl
      · rw [if_neg hg] at h; simp at h



/-- Claim C4 (amended): if Sync_LocalHalf returned true on a tracking
branch, was not refused as published, and either had nothing to do (gain
and lost empty) or fast-forwarded with the tracked upstream name unchanged,
then the repeated call computes empty upstream_gain and empty upstream_lost
and performs no rebase, reset, or merge. -/
theorem c4_idempotence_amended (e : Env) (st : St) (b : String)
    (hb : st.headRef = some b) (hm : mergeOf e st b ≠ "")
    (hnm : notMergedOf e (postClean st) b = [])
    (hpath :
      (lostOf e (postClean st) (mergeOf e st b) = [] ∧
       gainOf e (postClean st) = []) ∨
      (mergeOf e st b = revOf e ∧
       lostOf e (postClean st) (mergeOf e st b) = [] ∧
       gainOf e (postClean st) ≠ [] ∧
       myChangesOf e (postClean st) b (mergeOf e st b) = [] ∧
       e.dirtyNoUntracked = false ∧ e.mergeOk = true ∧
       e.revision ≠ "" ∧ revOf e ≠ "" ∧
       revOf e ≠ "HEAD" ∧ strStarts (revOf e) R_HEADS = false ∧
       oldMergeOf e (mergeOf e st b) ≠ "HEAD" ∧
       strStarts (oldMergeOf e (mergeOf e st b)) R_HEADS = false)) :
    (Sync_LocalHalf e st).1 = true ∧
    gainOf e (postClean (Sync_LocalHalf e st).2.2) = [] ∧
    lostOf e (postClean (Sync_LocalHalf e st).2.2)
      (mergeOf e (Sync_LocalHalf e st).2.2 b) = [] ∧
    (Sync_LocalHalf e (Sync_LocalHalf e st).2.2).1 = true ∧
    (∀ a ∈ (Sync_LocalHalf e (Sync_LocalHalf e st).2.2).2.1,
      touchesTip a = false) := by
  rcases hpath with ⟨hl, hg⟩ |
    ⟨hmr, hl, hg, hmc, hd, hmo, hrev, hrne, hrH, hrS, hoH, hoS⟩
  · have hSync : Sync_LocalHalf e st =
        (true,
         cleanActs st ++ (if mergeOf e st b = revOf e then [] else [Action.info]),
         postClean st) := by
      rw [sync_tracked_eq e st b hb hm, syncTracked_no_punt e _ b _ hnm,
          cont_noop e _ b _ _ hl hg]
    rw [hSync]
    have hg2 : gainOf e (postClean (postClean st)) = [] := hg
    have hl2 : lostOf e (postClean (postClean st))
        (mergeOf e (postClean st) b) = [] := hl
    have hsec := sync_second_noop e (postClean st) b hb hm hg2 hl2
    exact ⟨rfl, hg2, hl2, hsec.1, hsec.2⟩
  · have hch : ¬(lostOf e (postClean st) (mergeOf e st b) = [] ∧
        gainOf e (postClean st) = []) := fun hand => hg hand.2
    have hSync : Sync_LocalHalf e st =
        (true,
         cleanActs st ++ (preActs e (postClean st) (mergeOf e st b) ++
           [Action.ffMerge (revOf e)] ++ [Action.copyFiles]),
         setTip (saveBranch e (postClean st) b)
           (resolve e (saveBranch e (postClean st) b) (revOf e))) := by
      rw [sync_tracked_eq e st b hb hm, syncTracked_no_punt e _ b _ hnm,
          cont_ff e _ b _ _ hch hd hmc hl]
      simp [hmo]
    rw [hSync]
    have hR : resolve e (saveBranch e (postClean st) b) (revOf e) =
        e.remoteRef (revOf e) := resolve_stable e _ hrH hrS
    have hcfg :
        (setTip (saveBranch e (postClean st) b)
          (resolve e (saveBranch e (postClean st) b) (revOf e))).mergeCfg b =
        e.revision := by
      simp [setTip, saveBranch]
    have hm2v :
        mergeOf e (setTip (saveBranch e (postClean st) b)
          (resolve e (saveBranch e (postClean st) b) (revOf e))) b =
        revOf e := by
      unfold mergeOf LocalMerge
      rw [hcfg, if_neg hrev]
      rfl
    have hb2 :
        (setTip (saveBranch e (postClean st) b)
          (resolve e (saveBranch e (postClean st) b) (revOf e))).headRef =
        some b := hb
    have hm2 :
        mergeOf e (setTip (saveBranch e (postClean st) b)
          (resolve e (saveBranch e (postClean st) b) (revOf e))) b ≠ "" := by
      rw [hm2v]; exact hrne
    have hg2 :
        gainOf e (postClean (setTip (saveBranch e (postClean st) b)
          (resolve e (saveBranch e (postClean st) b) (revOf e)))) = [] := by
      unfold gainOf revlist2
      simp only [resolve_HEAD, resolve_stable e _ hrH hrS, postClean_headOid,
        setTip_headOid]
      exact filter_self_empty _
    have hl2 :
        lostOf e (postClean (setTip (saveBranch e (postClean st) b)
          (resolve e (saveBranch e (postClean st) b) (revOf e))))
          (mergeOf e (setTip (saveBranch e (postClean st) b)
            (resolve e (saveBranch e (postClean st) b) (revOf e))) b) = [] := by
      rw [hm2v, ← hmr]
      unfold lostOf at hl ⊢
      by_cases hc : revOf e = oldMergeOf e (mergeOf e st b)
      · rw [if_pos hc]
      · rw [if_neg hc] at hl ⊢
        unfold revlist2 at hl ⊢
        simp only [resolve_stable e _ hoH hoS, resolve_stable e _ hrH hrS] at hl ⊢
        exact hl
    have hsec := sync_second_noop e _ b hb2 hm2 hg2 hl2
    exact ⟨rfl, hg2, hl2, hsec.1, hsec.2⟩



/-- Counterexample for C4 as stated: after a first call that returned true
through the published-branch punt, the immediately repeated call computes a
non-empty upstream_gain. -/
theorem c4_counterexample :
    (Sync_LocalHalf envPub stPub).1 = true ∧
    gainOf envPub (postClean (Sync_LocalHalf envPub stPub).2.2) ≠ [] :=
  ⟨by decide, by decide⟩

/-- Witness for C4 at a concrete fast-forward environment. -/
theorem c4_witness :
    (Sync_LocalHalf envBase stFF).1 = true ∧
    gainOf envBase (postClean (Sync_LocalHalf envBase stFF).2.2) = [] ∧
    lostOf envBase (postClean (Sync_LocalHalf envBase stFF).2.2)
      (mergeOf envBase (Sync_LocalHalf envBase stFF).2.2 "topic") = [] ∧
    (Sync_LocalHalf envBase (Sync_LocalHalf envBase stFF).2.2).1 = true ∧
    (∀ a ∈ (Sync_LocalHalf envBase (Sync_LocalHalf envBase stFF).2.2).2.1,
      touchesTip a = false) :=
  c4_idempotence_amended envBase stFF "topic" (by decide) (by decide) (by decide)
    (Or.inr ⟨by decide, by decide, by decide, by decide, by decide, by decide,
      by decide, by decide, by decide, by decide, by decide, by decide⟩)

theorem filterMap_if_all {α β : Type} (l : List α) (c : α → Bool) (h : α → β)
    (hc : ∀ a ∈ l, c a = true) :
    l.filterMap (fun a => if c a then some (h a) else none) = l.map h := by
  induction l with
  | nil => rfl
  | cons a t ih =>
    have ha := hc a (by simp)
    simp only [List.filterMap_cons, ha, if_true, List.map_cons]
    rw [ih (fun x hx => hc x (by simp [hx]))]

theorem filterMap_if_none {α β : Type} (l : List α) (c : α → Bool) (h : α → β)
    (hc : ∀ a ∈ l, c a = false) :
    l.filterMap (fun a => if c a then some (h a) else none) = [] := by
  induction l with
  | nil => rfl
  | cons a t ih =>
    have ha := hc a (by simp)
    simp only [List.filterMap_cons, ha, Bool.false_eq_true, if_false]
    exact ih (fun x hx => hc x (by simp [hx]))

theorem headsSet_eq (st : St) (ho : OthersClean st) :
    (allrefs st).filterMap
      (fun p => if strStarts p.1 R_HEADS then some p.1 else none) =
    st.heads.map (fun p => R_HEADS ++ p.1) := by
  unfold allrefs
  rw [List.filterMap_append, List.filterMap_append,
      List.filterMap_map, List.filterMap_map]
  have h1 : st.heads.filterMap
      ((fun p => if strStarts p.1 R_HEADS then some p.1 else none) ∘
        (fun p => (R_HEADS ++ p.1, p.2))) =
      st.heads.map (fun p => R_HEADS ++ p.1) :=
    filterMap_if_all st.heads (fun p => strStarts (R_HEADS ++ p.1) R_HEADS)
      (fun p => R_HEADS ++ p.1) (fun a _ => strStarts_heads_self a.1)
  have h2 : st.published.filterMap
      ((fun p => if strStarts p.1 R_HEADS then some p.1 else none) ∘
        (fun p => (R_PUB ++ p.1, p.2))) = [] :=
    filterMap_if_none st.published (fun p => strStarts (R_PUB ++ p.1) R_HEADS)
      (fun p => R_PUB ++ p.1) (fun a _ => strStarts_pub_heads a.1)
  have h3 : st.others.filterMap
      (fun p => if strStarts p.1 R_HEADS then some p.1 else none) = [] := by
    apply filterMap_if_none st.others (fun p => strStarts p.1 R_HEADS) Prod.fst
    intro a ha
    exact (ho a ha).1
  rw [h1, h2, h3]
  simp

theorem canrm_eq (st : St) (ho : OthersClean st) :
    (allrefs st).filter (fun p => strStarts p.1 R_PUB) =
    st.published.map (fun p => (R_PUB ++ p.1, p.2)) := by
  unfold allrefs
  rw [List.filter_append, List.filter_append, List.filter_map, List.filter_map]
  have h1 : st.heads.filter
      ((fun p => strStarts p.1 R_PUB) ∘ (fun p => (R_HEADS ++ p.1, p.2))) = [] := by
    rw [List.filter_eq_nil_iff]
    intro a _
    simp [Function.comp, strStarts_heads_pub]
  have h2 : st.published.filter
      ((fun p => strStarts p.1 R_PUB) ∘ (fun p => (R_PUB ++ p.1, p.2))) =
      st.published := by
    rw [List.filter_eq_self]
    intro a _
    simp [Function.comp, strStarts_pub_self]
  have h3 : st.others.filter (fun p => strStarts p.1 R_PUB) = [] := by
    rw [List.filter_eq_nil_iff]
    intro a ha
    simp [(ho a ha).2]
  rw [h1, h2, h3]
  simp



theorem mem_heads_prefixed (hs : List (String × String)) (x : String) :
    ((R_HEADS ++ x) ∈ hs.map (fun p => R_HEADS ++ p.1)) ↔
      x ∈ hs.map Prod.fst := by
  constructor
  · intro h
    obtain ⟨a, ha, he⟩ := List.mem_map.mp h
    exact List.mem_map.mpr ⟨a, ha, heads_append_inj he⟩
  · intro h
    obtain ⟨a, ha, he⟩ := List.mem_map.mp h
    exact List.mem_map.mpr ⟨a, ha, by rw [he]⟩

theorem pubPair_inj :
    Function.Injective (fun q : String × String => (R_PUB ++ q.1, q.2)) := by
  rintro ⟨a1, a2⟩ ⟨b1, b2⟩ h
  simp only [Prod.mk.injEq] at h
  exact Prod.ext (pub_append_inj h.1) h.2

theorem dels_eq (st : St) (ho : OthersClean st) :
    ((allrefs st).filter (fun p => strStarts p.1 R_PUB)).filter
      (fun p => !(decide ((R_HEADS ++ strDropN p.1 15) ∈
        (allrefs st).filterMap
          (fun p => if strStarts p.1 R_HEADS then some p.1 else none)))) =
    (st.published.filter
      (fun q => !(decide (q.1 ∈ st.heads.map Prod.fst)))).map
      (fun q => (R_PUB ++ q.1, q.2)) := by
  rw [canrm_eq st ho, headsSet_eq st ho, List.filter_map]
  congr 1
  apply List.filter_congr
  intro q _
  simp only [Function.comp]
  rw [strDropN_pub]
  congr 1
  rw [decide_eq_decide]
  exact mem_heads_prefixed st.heads q.1

/-- Claim C7: CleanPublishedCache deletes exactly those refs/published/X
whose refs/heads/X is absent, passing the observed oid as the
compare-and-swap old value of each deletion, and leaves the published refs
whose branches exist, the branches, HEAD, and every other ref unchanged. -/
theorem c7_clean_published_cache (st : St) (ho : OthersClean st) :
    (CleanPublishedCache st).1 =
      (st.published.filter
        (fun q => !(decide (q.1 ∈ st.heads.map Prod.fst)))).map
        (fun q => Action.deleteRef (R_PUB ++ q.1) q.2) ∧
    (CleanPublishedCache st).2.published =
      st.published.filter (fun q => decide (q.1 ∈ st.heads.map Prod.fst)) ∧
    (CleanPublishedCache st).2.heads = st.heads ∧
    (CleanPublishedCache st).2.others = st.others ∧
    (CleanPublishedCache st).2.headRef = st.headRef ∧
    (CleanPublishedCache st).2.headOid = st.headOid := by
  refine ⟨?_, ?_, rfl, rfl, rfl, rfl⟩
  · show (((allrefs st).filter (fun p => strStarts p.1 R_PUB)).filter
        (fun p => !(decide ((R_HEADS ++ strDropN p.1 15) ∈
          (allrefs st).filterMap
            (fun p => if strStarts p.1 R_HEADS then some p.1 else none))))).map
        (fun p => Action.deleteRef p.1 p.2) = _
    rw [dels_eq st ho, List.map_map]
    rfl
  · show st.published.filter
        (fun q => !(decide ((R_PUB ++ q.1, q.2) ∈
          ((allrefs st).filter (fun p => strStarts p.1 R_PUB)).filter
            (fun p => !(decide ((R_HEADS ++ strDropN p.1 15) ∈
              (allrefs st).filterMap
                (fun p => if strStarts p.1 R_HEADS then some p.1 else none))))))) = _
    rw [dels_eq st ho]
    apply List.filter_congr
    intro q hq
    have hmem : ((R_PUB ++ q.1, q.2) ∈
        (st.published.filter
          (fun r => !(decide (r.1 ∈ st.heads.map Prod.fst)))).map
          (fun r => (R_PUB ++ r.1, r.2))) ↔
        (!(decide (q.1 ∈ st.heads.map Prod.fst))) = true := by
      constructor
      · intro h
        obtain ⟨r, hr, he⟩ := List.mem_map.mp h
        have : r = q := pubPair_inj he
        subst this
        exact (List.mem_filter.mp hr).2
      · intro h
        exact List.mem_map.mpr ⟨q, List.mem_filter.mpr ⟨hq, h⟩, rfl⟩
    rcases hq2 : decide (q.1 ∈ st.heads.map Prod.fst) with _ | _
    · have : (R_PUB ++ q.1, q.2) ∈
          (st.published.filter
            (fun r => !(decide (r.1 ∈ st.heads.map Prod.fst)))).map
            (fun r => (R_PUB ++ r.1, r.2)) := hmem.mpr (by rw [hq2]; rfl)
      simp [this, hq2]
    · have : ¬((R_PUB ++ q.1, q.2) ∈
          (st.published.filter
            (fun r => !(decide (r.1 ∈ st.heads.map Prod.fst)))).map
            (fun r => (R_PUB ++ r.1, r.2))) := by
        intro hc
        have := hmem.mp hc
        rw [hq2] at this
        simp at this
      simp [this, hq2]



/-- Witness for C7 at a concrete ref store with one stale and one live
published ref. -/
theorem c7_witness :
    OthersClean stPrune ∧
    (CleanPublishedCache stPrune).1 =
      [Action.deleteRef "refs/published/gone" "oidP"] ∧
    (CleanPublishedCache stPrune).2.published = [("kept", "oidK")] ∧
    (CleanPublishedCache stPrune).2.heads = stPrune.heads ∧
    (CleanPublishedCache stPrune).2.others = stPrune.others := by
  have ho : OthersClean stPrune := by
    unfold OthersClean
    decide
  have h := c7_clean_published_cache stPrune ho
  exact ⟨ho, h.1.trans (by decide), h.2.1.trans (by decide), h.2.2.1, h.2.2.2.1⟩



theorem lookupS_mem {l : List (String × String)} {k v : String}
    (h : lookupS l k = some v) : (k, v) ∈ l := by
  unfold lookupS at h
  obtain ⟨p, hf, hv⟩ := Option.map_eq_some'.mp h
  have hm := List.mem_of_find?_eq_some hf
  have hk := List.find?_some hf
  simp only [beq_iff_eq] at hk
  cases p
  simp_all

theorem lookupS_of_mem_nodup {l : List (String × String)} {k v : String}
    (hnd : (l.map Prod.fst).Nodup) (h : (k, v) ∈ l) :
    lookupS l k = some v := by
  induction l with
  | nil => simp at h
  | cons a t ih =>
    simp only [List.map_cons, List.nodup_cons] at hnd
    rcases List.mem_cons.mp h with he | ht
    · subst he
      unfold lookupS
      simp
    · have hne : a.1 ≠ k := by
        intro hc
        apply hnd.1
        subst hc
        exact List.mem_map.mpr ⟨(a.1, v), ht, rfl⟩
      unfold lookupS at ih ⊢
      rw [List.find?_cons_of_neg]
      · exact ih hnd.2 ht
      · simp [hne]

theorem nodup_filterMap_keyed {α β : Type} (l : List (String × α))
    (f : String × α → Option (String × β))
    (hf : ∀ p q, f p = some q → q.1 = p.1)
    (h : (l.map Prod.fst).Nodup) :
    ((l.filterMap f).map Prod.fst).Nodup := by
  induction l with
  | nil => simp
  | cons a t ih =>
    simp only [List.map_cons, List.nodup_cons] at h
    rw [List.filterMap_cons]
    cases hfa : f a with
    | none => exact ih h.2
    | some q =>
      simp only [List.map_cons, List.nodup_cons]
      refine ⟨?_, ih h.2⟩
      intro hc
      obtain ⟨r, hr, hre⟩ := List.mem_map.mp hc
      obtain ⟨p, hp, hfp⟩ := List.mem_filterMap.mp hr
      have h1 : r.1 = p.1 := hf p r hfp
      have h2 : q.1 = a.1 := hf a q hfa
      apply h.1
      rw [← h2, ← hre, h1]
      exact List.mem_map.mpr ⟨p, hp, rfl⟩

theorem hs_eq (st : St) (ho : OthersClean st) :
    (allrefs st).filterMap
      (fun p => if strStarts p.1 R_HEADS then some (strDropN p.1 11, p.2)
                else none) = st.heads := by
  unfold allrefs
  rw [List.filterMap_append, List.filterMap_append, List.filterMap_map,
      List.filterMap_map]
  have h1 : st.heads.filterMap
      ((fun p => if strStarts p.1 R_HEADS then some (strDropN p.1 11, p.2)
                 else none) ∘ (fun p => (R_HEADS ++ p.1, p.2))) =
      st.heads.map (fun p => (strDropN (R_HEADS ++ p.1) 11, p.2)) :=
    filterMap_if_all st.heads (fun p => strStarts (R_HEADS ++ p.1) R_HEADS)
      (fun p => (strDropN (R_HEADS ++ p.1) 11, p.2))
      (fun a _ => strStarts_heads_self a.1)
  have h1b : st.heads.map (fun p => (strDropN (R_HEADS ++ p.1) 11, p.2)) =
      st.heads := by
    have hcg : st.heads.map (fun p => (strDropN (R_HEADS ++ p.1) 11, p.2)) =
        st.heads.map (fun p => p) := by
      apply List.map_congr_left
      intro p _
      rw [strDropN_heads]
    rw [hcg, List.map_id']
  have h2 : st.published.filterMap
      ((fun p => if strStarts p.1 R_HEADS then some (strDropN p.1 11, p.2)
                 else none) ∘ (fun p => (R_PUB ++ p.1, p.2))) = [] :=
    filterMap_if_none st.published (fun p => strStarts (R_PUB ++ p.1) R_HEADS)
      (fun p => (strDropN (R_PUB ++ p.1) 11, p.2))
      (fun a _ => strStarts_pub_heads a.1)
  have h3 : st.others.filterMap
      (fun p => if strStarts p.1 R_HEADS then some (strDropN p.1 11, p.2)
                else none) = [] :=
    filterMap_if_none st.others (fun p => strStarts p.1 R_HEADS)
      (fun p => (strDropN p.1 11, p.2)) (fun a ha => (ho a ha).1)
  rw [h1, h1b, h2, h3]
  simp

theorem pubed_eq (st : St) (ho : OthersClean st) :
    (allrefs st).filterMap
      (fun p => if strStarts p.1 R_PUB then some (strDropN p.1 15, p.2)
                else none) = st.published := by
  unfold allrefs
  rw [List.filterMap_append, List.filterMap_append, List.filterMap_map,
      List.filterMap_map]
  have h1 : st.heads.filterMap
      ((fun p => if strStarts p.1 R_PUB then some (strDropN p.1 15, p.2)
                 else none) ∘ (fun p => (R_HEADS ++ p.1, p.2))) = [] :=
    filterMap_if_none st.heads (fun p => strStarts (R_HEADS ++ p.1) R_PUB)
      (fun p => (strDropN (R_HEADS ++ p.1) 15, p.2))
      (fun a _ => strStarts_heads_pub a.1)
  have h2 : st.published.filterMap
      ((fun p => if strStarts p.1 R_PUB then some (strDropN p.1 15, p.2)
                 else none) ∘ (fun p => (R_PUB ++ p.1, p.2))) =
      st.published.map (fun p => (strDropN (R_PUB ++ p.1) 15, p.2)) :=
    filterMap_if_all st.published (fun p => strStarts (R_PUB ++ p.1) R_PUB)
      (fun p => (strDropN (R_PUB ++ p.1) 15, p.2))
      (fun a _ => strStarts_pub_self a.1)
  have h2b : st.published.map (fun p => (strDropN (R_PUB ++ p.1) 15, p.2)) =
      st.published := by
    have hcg : st.published.map (fun p => (strDropN (R_PUB ++ p.1) 15, p.2)) =
        st.published.map (fun p => p) := by
      apply List.map_congr_left
      intro p _
      rw [strDropN_pub]
    rw [hcg, List.map_id']
  have h3 : st.others.filterMap
      (fun p => if strStarts p.1 R_PUB then some (strDropN p.1 15, p.2)
                else none) = [] :=
    filterMap_if_none st.others (fun p => strStarts p.1 R_PUB)
      (fun p => (strDropN p.1 15, p.2)) (fun a ha => (ho a ha).2)
  rw [h1, h2, h2b, h3]
  simp



/-- Claim C6: GetUploadableBranches returns exactly one (branch, base =
LocalMerge) pair for each branch B such that refs/heads/B exists, B has a
non-empty LocalMerge, B's published oid (if a published ref exists) differs
from its head oid, and revlist(^LocalMerge, refs/heads/B) is non-empty; and
no entry for any other branch. -/
theorem c6_uploadable_branches (e : Env) (st : St) (ho : OthersClean st)
    (hnd : (st.heads.map Prod.fst).Nodup) :
    (∀ b base : String, (b, base) ∈ GetUploadableBranches e st ↔
      (∃ id, lookupS st.heads b = some id ∧
        lookupS st.published b ≠ some id ∧
        mergeOf e st b ≠ "" ∧
        base = mergeOf e st b ∧
        revlist2 e st (mergeOf e st b) (R_HEADS ++ b) ≠ [])) ∧
    ((GetUploadableBranches e st).map Prod.fst).Nodup := by
  have hG : GetUploadableBranches e st = st.heads.filterMap (fun bp =>
      if lookupS st.published bp.1 = some bp.2 then none
      else if LocalMerge e (st.mergeCfg bp.1) = "" then none
      else if revlist2 e st (LocalMerge e (st.mergeCfg bp.1)) (R_HEADS ++ bp.1) = []
        then none
      else some (bp.1, LocalMerge e (st.mergeCfg bp.1))) := by
    simp only [GetUploadableBranches]
    rw [hs_eq st ho, pubed_eq st ho]
  constructor
  · intro b base
    rw [hG, List.mem_filterMap]
    constructor
    · rintro ⟨a, ha, hfa⟩
      by_cases h1 : lookupS st.published a.1 = some a.2
      · rw [if_pos h1] at hfa; cases hfa
      · rw [if_neg h1] at hfa
        by_cases h2 : LocalMerge e (st.mergeCfg a.1) = ""
        · rw [if_pos h2] at hfa; cases hfa
        · rw [if_neg h2] at hfa
          by_cases h3 : revlist2 e st (LocalMerge e (st.mergeCfg a.1))
              (R_HEADS ++ a.1) = []
          · rw [if_pos h3] at hfa; cases hfa
          · rw [if_neg h3] at hfa
            have hpair : (a.1, LocalMerge e (st.mergeCfg a.1)) = (b, base) :=
              Option.some.inj hfa
            have hb : a.1 = b := congrArg Prod.fst hpair
            have hbase : LocalMerge e (st.mergeCfg a.1) = base :=
              congrArg Prod.snd hpair
            subst hb
            refine ⟨a.2, ?_, ?_, ?_, ?_, ?_⟩
            · exact lookupS_of_mem_nodup hnd (by
                obtain ⟨x, y⟩ := a
                exact ha)
            · exact h1
            · exact h2
            · rw [← hbase]; rfl
            · exact h3
    · rintro ⟨id, hid, h1, h2, h3, h4⟩
      refine ⟨(b, id), lookupS_mem hid, ?_⟩
      rw [if_neg h1]
      unfold mergeOf at h2 h3 h4
      rw [if_neg h2, if_neg h4, ← h3]
  · rw [hG]
    apply nodup_filterMap_keyed _ _ _ hnd
    intro p q hpq
    by_cases h1 : lookupS st.published p.1 = some p.2
    · rw [if_pos h1] at hpq; cases hpq
    · rw [if_neg h1] at hpq
      by_cases h2 : LocalMerge e (st.mergeCfg p.1) = ""
      · rw [if_pos h2] at hpq; cases hpq
      · rw [if_neg h2] at hpq
        by_cases h3 : revlist2 e st (LocalMerge e (st.mergeCfg p.1))
            (R_HEADS ++ p.1) = []
        · rw [if_pos h3] at hpq; cases hpq
        · rw [if_neg h3] at hpq
          have := Option.some.inj hpq
          rw [← this]

/-- Witness for C6: the branch with unpublished work is returned; the
published-at-tip branch and the untracked branch are not. -/
theorem c6_witness :
    ("good", "refs/remotes/origin/master") ∈ GetUploadableBranches envBase stUpl ∧
    ¬(∃ base : String, ("stale", base) ∈ GetUploadableBranches envBase stUpl) ∧
    ¬(∃ base : String, ("notrack", base) ∈ GetUploadableBranches envBase stUpl) := by
  have ho : OthersClean stUpl := by
    unfold OthersClean
    decide
  have hnd : (stUpl.heads.map Prod.fst).Nodup := by decide
  have h := c6_uploadable_branches envBase stUpl ho hnd
  refine ⟨?_, ?_, ?_⟩
  · exact (h.1 "good" "refs/remotes/origin/master").mpr
      ⟨"oidT", by decide, by decide, by decide, by decide, by decide⟩
  · rintro ⟨base, hbase⟩
    obtain ⟨id, hid, hpub, -, -, -⟩ := (h.1 "stale" base).mp hbase
    have hL : lookupS stUpl.heads "stale" = some "oidS" := by decide
    rw [hL] at hid
    have hideq : id = "oidS" := (Option.some.inj hid).symm
    subst hideq
    exact hpub (by decide)
  · rintro ⟨base, hbase⟩
    obtain ⟨id, -, -, hm, -, -⟩ := (h.1 "notrack" base).mp hbase
    exact hm (by decide)

end RepoPush
